import Mathlib

/-!
# Verification of `arduino/resources/install.go`

A shallow embedding of `DownloadResource.Install`, `IsDirEmpty` and
`findPackageRoot`, together with a small model of the filesystem primitives
they call (`MkdirAll`, `MkTempDir`, `ReadDir`, `IsDir`, `Rename`, `RemoveAll`
from go-paths-helper, `os.Open`, and `extract.Archive`).

The filesystem is a finite store of `(path, node)` entries.  A lookup returns
the first entry at a path.  Every primitive can fail for a structural reason
(a missing path, a file where a directory is needed, an existing target) or
because the environment injects a failure (permissions, a rename across
volumes).  That holds for `RemoveAll` too, whose error `Install` discards: a
failing `RemoveAll` leaves its argument and some of what is below it.

`MkTempDir` draws the name of the temporary subdirectory at random inside the
call.  Such a name is a component of its own kind: the paths handed to
`Install` are written before the draw and consist of plain names only.
-/

set_option autoImplicit false
set_option maxRecDepth 100000

namespace Resources

/-! ## Data model -/

/-- A path component: a plain name, as callers, stores and archives write it,
or a name drawn by `MkTempDir` from a pattern and a random suffix. -/
inductive Name where
  | str (s : String)
  | temp (pattern : String) (suffix : String)
  deriving DecidableEq, Repr

/-- A path, given by its components below the filesystem root. -/
abbrev Path := List Name

/-- What sits at a path: a regular file with its content, or a directory. -/
inductive Node where
  | file (content : String)
  | dir
  deriving DecidableEq, Repr

/-- The filesystem: a finite store of entries; the first entry at a path wins. -/
abbrev FS := List (Path × Node)

/-- The primitives that can fail. -/
inductive Op where
  | mkdirAll
  | mkTempDir
  | openFile
  | readDir
  | rename
  | removeAll
  deriving DecidableEq, Repr

/-- The part of the platform that is not determined by the store: the name
drawn for the temporary directory, the archive decoder, and failures that the
platform may inject into a primitive called on a path. -/
structure Env where
  /-- The random suffix `MkTempDir` appends to its name pattern. -/
  tempName : String
  /-- What `extract.Archive` writes for a file content: the entries, relative
  to the extraction directory, and the error it reports, if any. -/
  unpack : String → List (List String × Node) × Option String
  /-- An injected failure of a primitive on a path. -/
  fault : Op → Path → Option String
  /-- What a failing `RemoveAll` leaves of the entries below its argument. -/
  survives : Path → Bool

/-- Modelled from the spec: the archive-resource locator `ArchivePath`, a
method of `DownloadResource` declared outside `install.go`.  Given the download
directory it returns the path of the downloaded archive file, or an error. -/
structure DownloadResource where
  ArchivePath : List String → Except String (List String)

/-- How a call of `Install` ends: it returns `nil`, returns an error with a
message, or the goroutine panics. -/
inductive Outcome where
  | ok
  | error (msg : String)
  | panic (msg : String)
  deriving DecidableEq, Repr

deriving instance DecidableEq for Except

/-! ## Path helpers -/

/-- The path a caller writes with plain names. -/
def ofStrings (p : List String) : Path := p.map Name.str

/-- The text of a path component. -/
def nameString : Name → String
  | .str s => s
  | .temp pattern suffix => pattern ++ suffix

/-- The text of a path, as `Path.String()` prints it. -/
def pathString (p : Path) : String := "/" ++ "/".intercalate (p.map nameString)

/-- The Go method `Path.Parent()`; the root is its own parent. -/
def Parent (p : Path) : Path := p.dropLast

/-- Whether `q` is `p` itself or lies below `p`. -/
def isUnder (p q : Path) : Bool := p.isPrefixOf q

/-- Whether `q` lies strictly below `p`. -/
def isStrictlyUnder (p q : Path) : Bool := p.isPrefixOf q && decide (q ≠ p)

/-- Whether `q` is an immediate entry of the directory `p`. -/
def isChild (p q : Path) : Bool := decide (q ≠ []) && decide (Parent q = p)

/-! ## Filesystem primitives -/

/-- The recursion of `os.MkdirAll` on the reversed path: stat the path; a
directory is kept, a file is an error; a missing path is created after its
parent. -/
def mkdirAllRev (fs : FS) : List Name → Except String FS
  | [] =>
    match fs.lookup [] with
    | some .dir => .ok fs
    | some (.file _) => .error ("mkdir " ++ pathString [] ++ ": not a directory")
    | none => .ok (([], .dir) :: fs)
  | n :: rp =>
    match fs.lookup (n :: rp).reverse with
    | some .dir => .ok fs
    | some (.file _) =>
      .error ("mkdir " ++ pathString (n :: rp).reverse ++ ": not a directory")
    | none =>
      match mkdirAllRev fs rp with
      | .error e => .error e
      | .ok fs1 => .ok (((n :: rp).reverse, .dir) :: fs1)

/-- The Go method `Path.MkdirAll()`. -/
def MkdirAll (env : Env) (fs : FS) (p : Path) : Except String FS :=
  match env.fault .mkdirAll p with
  | some e => .error e
  | none => mkdirAllRev fs p.reverse

/-- The Go method `Path.MkTempDir(pattern)`: a new directory below `p` whose
name is drawn from the pattern. -/
def MkTempDir (env : Env) (fs : FS) (p : Path) (pattern : String) :
    Except String (Path × FS) :=
  match env.fault .mkTempDir p with
  | some e => .error e
  | none =>
    match fs.lookup p with
    | some .dir =>
      let t := p ++ [Name.temp pattern env.tempName]
      match fs.lookup t with
      | some _ => .error ("mkdir " ++ pathString t ++ ": file exists")
      | none => .ok (t, (t, .dir) :: fs)
    | some (.file _) => .error ("mkdir " ++ pathString p ++ ": not a directory")
    | none => .error ("stat " ++ pathString p ++ ": no such file or directory")

/-- The Go function `os.Open`: the handle is the node found at the path. -/
def osOpen (env : Env) (fs : FS) (p : Path) : Except String Node :=
  match env.fault .openFile p with
  | some e => .error e
  | none =>
    match fs.lookup p with
    | some node => .ok node
    | none => .error ("open " ++ pathString p ++ ": no such file or directory")

/-- The Go function `extract.Archive(file, dest, nil)`: the decoded entries are
written below `dest`; an error may be reported after some entries were
written. -/
def extractArchive (env : Env) (fs : FS) (file : Node) (dest : Path) :
    FS × Option String :=
  match file with
  | .dir => (fs, some "read: is a directory")
  | .file content =>
    ((env.unpack content).1.map (fun e => (dest ++ ofStrings e.1, e.2)) ++ fs,
      (env.unpack content).2)

/-- The paths of the immediate entries of `p`, in store order. -/
def entriesOf (fs : FS) (p : Path) : List Path :=
  (fs.filter (fun e => isChild p e.1)).map (fun e => e.1)

/-- The Go method `Path.ReadDir()`: the immediate entries of a directory. -/
def ReadDir (env : Env) (fs : FS) (p : Path) : Except String (List Path) :=
  match env.fault .readDir p with
  | some e => .error e
  | none =>
    match fs.lookup p with
    | some .dir => .ok (entriesOf fs p)
    | some (.file _) => .error ("readdirent " ++ pathString p ++ ": not a directory")
    | none => .error ("open " ++ pathString p ++ ": no such file or directory")

/-- The Go method `Path.IsDir()`: a missing path is not a directory and not an
error. -/
def IsDir (fs : FS) (p : Path) : Bool × Option String :=
  (decide (fs.lookup p = some .dir), none)

/-- Whether a call of `RemoveAll` on `p` leaves the entry at `q`: a call that
does not fail takes `p` and everything below it; a failing call leaves `p` and
those entries below it that the platform did not get to remove. -/
def leftByRemoveAll (env : Env) (p q : Path) : Bool :=
  match env.fault .removeAll p with
  | none => !isUnder p q
  | some _ => !isStrictlyUnder p q || env.survives q

/-- The Go method `Path.RemoveAll()`, that is `os.RemoveAll`: it removes what
it can and returns the first error it met. -/
def RemoveAll (env : Env) (fs : FS) (p : Path) : FS × Option String :=
  (fs.filter (fun e => leftByRemoveAll env p e.1), env.fault .removeAll p)

/-- The store after moving the tree at `src` to `dst`. -/
def moveTree (fs : FS) (src dst : Path) : FS :=
  (fs.filter (fun e => isUnder src e.1)).map (fun e => (dst ++ e.1.drop src.length, e.2))
    ++ fs.filter (fun e => !isUnder src e.1 && !isUnder dst e.1)

/-- The Go method `Path.Rename(newpath)`, that is `os.Rename`: a target that
is a directory, or has anything below it, is refused as existing; renaming a
file to itself does nothing; a tree cannot move below itself; a directory
does not replace a file; the parent of the target must be a directory. -/
def Rename (env : Env) (fs : FS) (src dst : Path) : Except String FS :=
  match env.fault .rename src with
  | some e => .error e
  | none =>
    match fs.lookup src with
    | none =>
      .error ("rename " ++ pathString src ++ " " ++ pathString dst
        ++ ": no such file or directory")
    | some node =>
      if decide (fs.lookup dst = some .dir) || fs.any (fun e => isStrictlyUnder dst e.1) then
        .error ("rename " ++ pathString src ++ " " ++ pathString dst
          ++ ": file exists")
      else if src = dst then .ok fs
      else if isUnder src dst then
        .error ("rename " ++ pathString src ++ " " ++ pathString dst
          ++ ": invalid argument")
      else
        match fs.lookup dst, node with
        | some (.file _), .dir =>
          .error ("rename " ++ pathString src ++ " " ++ pathString dst
            ++ ": not a directory")
        | _, _ =>
          match fs.lookup (Parent dst) with
          | some .dir => .ok (moveTree fs src dst)
          | _ =>
            .error ("rename " ++ pathString src ++ " " ++ pathString dst
              ++ ": no such file or directory")

/-! ## The functions of `install.go` -/

/-- The Go function `IsDirEmpty` (install.go, lines 75-82). -/
def IsDirEmpty (env : Env) (fs : FS) (path : Path) : Bool × Option String :=
  match ReadDir env fs path with
  | .error err => (false, some err)
  | .ok files => (decide (files.length = 0), none)

/-- The loop of `findPackageRoot` (install.go, lines 89-99): `root` is the
directory found so far, `none` standing for the nil pointer. -/
def findPackageRootLoop (fs : FS) : List Path → Option Path → Except String (Option Path)
  | [], root => .ok root
  | file :: rest, root =>
    if !(IsDir fs file).1 then
      findPackageRootLoop fs rest root
    else
      match root with
      | none => findPackageRootLoop fs rest (some file)
      | some r =>
        .error ("no unique root dir in archive, found '" ++ pathString r
          ++ "' and '" ++ pathString file ++ "'")

/-- The Go function `findPackageRoot` (install.go, lines 84-101). -/
def findPackageRoot (env : Env) (fs : FS) (parent : Path) : Except String (Option Path) :=
  match ReadDir env fs parent with
  | .error err => .error ("reading package root dir: " ++ err)
  | .ok files => findPackageRootLoop fs files none

/-- The deferred closure of `Install` (install.go, lines 55-59); the error of
`destDirParent.RemoveAll()` is discarded. -/
def removeParentIfEmpty (env : Env) (fs : FS) (destDirParent : Path) : FS :=
  match IsDirEmpty env fs destDirParent with
  | (true, none) => (RemoveAll env fs destDirParent).1
  | _ => fs

/-- Lines 61-72 of `Install`: the rename of the extracted root, which panics on
a nil root. -/
def installMove (env : Env) (fs : FS) (root : Option Path) (destDir : Path) :
    Outcome × FS :=
  match root with
  | none => (.panic "runtime error: invalid memory address or nil pointer dereference", fs)
  | some r =>
    match Rename env fs r destDir with
    | .error err =>
      (.error ("moving extracted archive to destination dir: " ++ err), fs)
    | .ok fs1 => (.ok, fs1)

/-- Lines 44-72 of `Install`, run on the extracted content: the root search,
the creation of the destination's parent and the rename; the deferred closure
of lines 55-59 runs when the part after it is left. -/
def installExtracted (env : Env) (tempDir destDir : Path) (fs : FS) : Outcome × FS :=
  match findPackageRoot env fs tempDir with
  | .error err => (.error ("searching package root dir: " ++ err), fs)
  | .ok root =>
    match MkdirAll env fs (Parent destDir) with
    | .error err => (.error err, fs)
    | .ok fs1 =>
      ((installMove env fs1 root destDir).1,
        removeParentIfEmpty env (installMove env fs1 root destDir).2 (Parent destDir))

/-- Lines 28-72 of `Install`, run with the temporary directory in place. -/
def installBody (release : DownloadResource) (env : Env) (downloadDir : List String)
    (tempDir destDir : Path) (fs : FS) : Outcome × FS :=
  match release.ArchivePath downloadDir with
  | .error err => (.error ("getting archive path: " ++ err), fs)
  | .ok archivePath =>
    match osOpen env fs (ofStrings archivePath) with
    | .error err => (.error ("opening archive file: " ++ err), fs)
    | .ok file =>
      match extractArchive env fs file tempDir with
      | (fs1, some err) => (.error ("extracting archive: " ++ err), fs1)
      | (fs1, none) => installExtracted env tempDir destDir fs1

/-- The Go method `DownloadResource.Install` (install.go, lines 17-73), called
with three paths written by the caller.  The result is how the call ends and
the store it leaves; `defer tempDir.RemoveAll()` runs on every exit after the
temporary directory was made, and its error is discarded. -/
def Install (release : DownloadResource) (env : Env)
    (downloadDir tempPath destDir : List String) (fs : FS) : Outcome × FS :=
  match MkdirAll env fs (ofStrings tempPath) with
  | .error err => (.error ("creating temp dir for extraction: " ++ err), fs)
  | .ok fs1 =>
    match MkTempDir env fs1 (ofStrings tempPath) "package-" with
    | .error err => (.error ("creating temp dir for extraction: " ++ err), fs1)
    | .ok (tempDir, fs2) =>
      ((installBody release env downloadDir tempDir (ofStrings destDir) fs2).1,
        (RemoveAll env (installBody release env downloadDir tempDir (ofStrings destDir) fs2).2
          tempDir).1)

/-! ## Reference definitions, written from the specification -/

/-- The specification of the unique-root finder: filter the listed entries to
directories and require exactly one. -/
def findPackageRootSpec (fs : FS) (files : List Path) : Except String (Option Path) :=
  match files.filter (fun f => decide (fs.lookup f = some .dir)) with
  | [] => .ok none
  | [d] => .ok (some d)
  | a :: b :: _ =>
    .error ("no unique root dir in archive, found '" ++ pathString a
      ++ "' and '" ++ pathString b ++ "'")

/-! ## Observations on the store -/

/-- The entries below a directory, by their path relative to it. -/
def contents (fs : FS) (p : Path) : List (Path × Node) :=
  (fs.filter (fun e => isStrictlyUnder p e.1)).map (fun e => (e.1.drop p.length, e.2))

/-! ## A concrete platform and store for examples -/

/-- An archive whose only top-level directory is `tool-1.0`. -/
def toolArchive : List (List String × Node) :=
  [(["tool-1.0"], .dir), (["tool-1.0", "bin"], .dir), (["tool-1.0", "README"], .file "read me")]

/-- A platform without injected failures that decodes three archive contents. -/
def demoEnv : Env where
  tempName := "123456789"
  unpack := fun c =>
    if c = "tool" then (toolArchive, none)
    else if c = "two" then ([(["a"], .dir), (["b"], .dir), (["notes"], .file "n")], none)
    else if c = "flat" then ([(["README"], .file "read me")], none)
    else ([], some "archive/zip: not a valid zip file")
  fault := fun _ _ => none
  survives := fun _ => false

/-- The platform `demoEnv` on which every rename fails as across volumes. -/
def crossDeviceEnv : Env :=
  { demoEnv with
    fault := fun op _ => if op = .rename then some "invalid cross-device link" else none }

/-- The platform `demoEnv` on which every `RemoveAll` fails at once, leaving
everything in place. -/
def stuckEnv : Env :=
  { demoEnv with
    fault := fun op _ => if op = .removeAll then some "permission denied" else none
    survives := fun _ => true }

/-- A resource whose archive is `tool-1.0.zip` in the download directory. -/
def demoRelease : DownloadResource where
  ArchivePath := fun d => .ok (d ++ ["tool-1.0.zip"])

/-- A store with a download directory holding an archive of the given content
and an empty directory `/opt`. -/
def demoFS (content : String) : FS :=
  [([], .dir), (ofStrings ["dl"], .dir),
    (ofStrings ["dl", "tool-1.0.zip"], .file content), (ofStrings ["opt"], .dir)]

/-- The temporary subdirectory `demoEnv` makes below `/tmp`. -/
def demoTemp : Path := ofStrings ["tmp"] ++ [Name.temp "package-" "123456789"]

/-- The store `demoFS` once `/tmp` and the temporary subdirectory were made. -/
def demoStaged (content : String) : FS :=
  (demoTemp, .dir) :: (ofStrings ["tmp"], .dir) :: demoFS content

/-- The store `demoStaged` once the archive was extracted. -/
def demoExtracted (content : String) : FS :=
  (demoEnv.unpack content).1.map (fun e => (demoTemp ++ ofStrings e.1, e.2))
    ++ demoStaged content

theorem lookup_filter_path (f : Path → Bool) (fs : FS) (q : Path) :
    (fs.filter (fun e => f e.1)).lookup q = if f q then fs.lookup q else none := by
  induction fs with
  | nil => simp
  | cons e rest ih =>
    obtain ⟨k, v⟩ := e
    by_cases hk : f k = true
    · by_cases hq : q = k
      · subst hq; simp [List.filter_cons, hk, List.lookup_cons]
      · have : (q == k) = false := by simpa using hq
        simp [List.filter_cons, hk, List.lookup_cons, this, ih]
    · by_cases hq : q = k
      · subst hq; simp [List.filter_cons, hk, ih]
      · have : (q == k) = false := by simpa using hq
        simp [List.filter_cons, hk, List.lookup_cons, this, ih]

theorem isUnder_iff (p q : Path) : isUnder p q = true ↔ p <+: q := by
  unfold isUnder
  exact List.isPrefixOf_iff_prefix

theorem isUnder_self (p : Path) : isUnder p p = true :=
  (isUnder_iff p p).2 (List.prefix_refl p)

theorem isStrictlyUnder_iff (p q : Path) :
    isStrictlyUnder p q = true ↔ p <+: q ∧ q ≠ p := by
  unfold isStrictlyUnder
  simp [List.isPrefixOf_iff_prefix]

/-! ## What `RemoveAll` leaves -/

theorem leftByRemoveAll_other (env : Env) (p q : Path) (h : isUnder p q = false) :
    leftByRemoveAll env p q = true := by
  have hs : isStrictlyUnder p q = false := by
    cases hh : isStrictlyUnder p q with
    | false => rfl
    | true =>
      rw [(isUnder_iff p q).2 ((isStrictlyUnder_iff p q).1 hh).1] at h
      exact Bool.noConfusion h
  unfold leftByRemoveAll
  cases env.fault .removeAll p <;> simp [h, hs]

theorem leftByRemoveAll_done (env : Env) (p q : Path)
    (hrm : env.fault .removeAll p = none) (h : isUnder p q = true) :
    leftByRemoveAll env p q = false := by
  unfold leftByRemoveAll
  rw [hrm]
  simp [h]

/-- A `RemoveAll` leaves what is not below its argument. -/
theorem lookup_RemoveAll_other (env : Env) (fs : FS) (p q : Path)
    (h : isUnder p q = false) : (RemoveAll env fs p).1.lookup q = fs.lookup q := by
  unfold RemoveAll
  simp only
  rw [lookup_filter_path (leftByRemoveAll env p), leftByRemoveAll_other env p q h]
  rfl

/-- A `RemoveAll` that does not fail takes its argument and what is below it. -/
theorem lookup_RemoveAll_done (env : Env) (fs : FS) (p q : Path)
    (hrm : env.fault .removeAll p = none) (h : isUnder p q = true) :
    (RemoveAll env fs p).1.lookup q = none := by
  unfold RemoveAll
  simp only
  rw [lookup_filter_path (leftByRemoveAll env p), leftByRemoveAll_done env p q hrm h]
  rfl

/-- A `RemoveAll` creates nothing. -/
theorem lookup_RemoveAll_none (env : Env) (fs : FS) (p q : Path)
    (h : fs.lookup q = none) : (RemoveAll env fs p).1.lookup q = none := by
  unfold RemoveAll
  simp only
  rw [lookup_filter_path (leftByRemoveAll env p), h]
  cases leftByRemoveAll env p q <;> rfl

theorem mem_RemoveAll_other (env : Env) (fs : FS) (p : Path) (e : Path × Node)
    (he : e ∈ fs) (h : isUnder p e.1 = false) : e ∈ (RemoveAll env fs p).1 := by
  unfold RemoveAll
  exact List.mem_filter.2 ⟨he, leftByRemoveAll_other env p e.1 h⟩

/-! ## The unique-root finder -/

theorem findPackageRootLoop_some (fs : FS) (files : List Path) (r : Path) :
    findPackageRootLoop fs files (some r) =
      match files.filter (fun f => decide (fs.lookup f = some .dir)) with
      | [] => .ok (some r)
      | b :: _ =>
        .error ("no unique root dir in archive, found '" ++ pathString r
          ++ "' and '" ++ pathString b ++ "'") := by
  induction files with
  | nil => simp [findPackageRootLoop]
  | cons f rest ih =>
    by_cases hf : fs.lookup f = some .dir
    · simp [findPackageRootLoop, IsDir, hf]
    · simp [findPackageRootLoop, IsDir, hf, ih]

theorem findPackageRootLoop_none (fs : FS) (files : List Path) :
    findPackageRootLoop fs files none = findPackageRootSpec fs files := by
  induction files with
  | nil => simp [findPackageRootLoop, findPackageRootSpec]
  | cons f rest ih =>
    by_cases hf : fs.lookup f = some .dir
    · simp only [findPackageRootLoop, IsDir, hf, findPackageRootSpec, List.filter_cons]
      simp only [decide_True, Bool.not_true, Bool.false_eq_true, if_false, if_true]
      rw [findPackageRootLoop_some]
      cases List.filter (fun f => decide (fs.lookup f = some Node.dir)) rest <;> rfl
    · simp only [findPackageRootSpec] at ih
      simp [findPackageRootLoop, IsDir, hf, ih, findPackageRootSpec]

theorem findPackageRoot_of_listing (env : Env) (fs : FS) (parent : Path) (files : List Path)
    (hlist : ReadDir env fs parent = .ok files) :
    findPackageRoot env fs parent = findPackageRootSpec fs files := by
  unfold findPackageRoot
  rw [hlist]
  exact findPackageRootLoop_none fs files

/-- C8. For every successfully listed directory, `findPackageRoot` equals the
reference that filters the listed entries to directories and requires exactly
one: one directory gives that directory and no error, wherever it sits among
the other entries; none gives no path and no error; two or more give no path
and an error naming the first two directories in listing order. -/
theorem findPackageRoot_eq_spec (env : Env) (fs : FS) (parent : Path) (files : List Path)
    (hlist : ReadDir env fs parent = .ok files) :
    findPackageRoot env fs parent = findPackageRootSpec fs files
      ∧ (∀ d, files.filter (fun f => (IsDir fs f).1) = [d] →
          findPackageRoot env fs parent = .ok (some d))
      ∧ (files.filter (fun f => (IsDir fs f).1) = [] →
          findPackageRoot env fs parent = .ok none)
      ∧ (∀ a b rest, files.filter (fun f => (IsDir fs f).1) = a :: b :: rest →
          findPackageRoot env fs parent
            = .error ("no unique root dir in archive, found '" ++ pathString a
                ++ "' and '" ++ pathString b ++ "'")) := by
  rw [findPackageRoot_of_listing env fs parent files hlist]
  simp only [IsDir, findPackageRootSpec]
  refine ⟨trivial, ?_, ?_, ?_⟩
  · intro d h
    rw [h]
  · intro h
    rw [h]
  · intro a b rest h
    rw [h]

theorem findPackageRoot_eq_spec_witness :
    findPackageRoot demoEnv
        [(ofStrings ["t"], .dir), (ofStrings ["t", "README"], .file "r"),
          (ofStrings ["t", "tool"], .dir)] (ofStrings ["t"])
      = .ok (some (ofStrings ["t", "tool"])) :=
  (findPackageRoot_eq_spec demoEnv
    [(ofStrings ["t"], .dir), (ofStrings ["t", "README"], .file "r"),
      (ofStrings ["t", "tool"], .dir)] (ofStrings ["t"])
    [ofStrings ["t", "README"], ofStrings ["t", "tool"]] (by decide)).2.1
    (ofStrings ["t", "tool"]) (by decide)

/-! ## The empty-directory predicate -/

/-- C9. `IsDirEmpty` returns `(true, nil)` exactly when the listing succeeds
with no entry, `(false, nil)` when it succeeds with at least one entry, and
`(false, err)` with the listing's own error when the listing fails. -/
theorem IsDirEmpty_spec (env : Env) (fs : FS) (path : Path) :
    (IsDirEmpty env fs path = (true, none) ↔ ReadDir env fs path = .ok [])
      ∧ (∀ files, ReadDir env fs path = .ok files → files ≠ [] →
          IsDirEmpty env fs path = (false, none))
      ∧ (∀ err, ReadDir env fs path = .error err →
          IsDirEmpty env fs path = (false, some err)) := by
  unfold IsDirEmpty
  refine ⟨?_, ?_, ?_⟩
  · cases h : ReadDir env fs path with
    | error e => simp
    | ok files => cases files <;> simp
  · intro files h hne
    rw [h]
    cases files with
    | nil => exact absurd rfl hne
    | cons a l => simp
  · intro err h
    rw [h]

theorem IsDirEmpty_spec_witness :
    IsDirEmpty demoEnv (demoFS "tool") (ofStrings ["opt"]) = (true, none)
      ∧ IsDirEmpty demoEnv (demoFS "tool") (ofStrings ["dl"]) = (false, none)
      ∧ IsDirEmpty demoEnv (demoFS "tool") (ofStrings ["nowhere"])
          = (false, some "open /nowhere: no such file or directory") :=
  ⟨(IsDirEmpty_spec demoEnv (demoFS "tool") (ofStrings ["opt"])).1.2 (by decide),
    (IsDirEmpty_spec demoEnv (demoFS "tool") (ofStrings ["dl"])).2.1
      [ofStrings ["dl", "tool-1.0.zip"]] (by decide) (by decide),
    (IsDirEmpty_spec demoEnv (demoFS "tool") (ofStrings ["nowhere"])).2.2 _ (by decide)⟩


/-! ## What the primitives do to the store -/

theorem lookup_append_skip (added fs : FS) (q : Path) (h : ∀ e ∈ added, e.1 ≠ q) :
    (added ++ fs).lookup q = fs.lookup q := by
  induction added with
  | nil => rfl
  | cons e rest ih =>
    obtain ⟨k, v⟩ := e
    have hk : (q == k) = false := by
      have := h (k, v) (List.mem_cons_self _ _)
      simpa using fun hq => this hq.symm
    simp only [List.cons_append, List.lookup_cons, hk]
    exact ih (fun e he => h e (List.mem_cons_of_mem _ he))

theorem lookup_cons_ne (k q : Path) (v : Node) (fs : FS) (h : k ≠ q) :
    List.lookup q ((k, v) :: fs) = fs.lookup q :=
  lookup_append_skip [(k, v)] fs q (by
    intro e he
    rcases List.mem_singleton.1 he with rfl
    exact h)

theorem lookup_cons_same (k : Path) (v : Node) (fs : FS) :
    List.lookup k ((k, v) :: fs) = some v := by
  simp [List.lookup_cons]

theorem mkdirAllRev_ok (fs : FS) (rp : List Name) :
    ∀ fs1, mkdirAllRev fs rp = .ok fs1 →
      fs1.lookup rp.reverse = some .dir
        ∧ ∃ added : FS, fs1 = added ++ fs
          ∧ ∀ e ∈ added, e.1 <+: rp.reverse ∧ e.2 = .dir ∧ fs.lookup e.1 = none := by
  induction rp with
  | nil =>
    intro fs1 h
    cases hl : fs.lookup ([] : List Name).reverse with
    | none =>
      simp only [mkdirAllRev] at h
      simp only [List.reverse_nil] at hl
      simp only [hl] at h
      cases h
      refine ⟨lookup_cons_same _ _ _, [([], .dir)], rfl, ?_⟩
      intro e he
      rcases List.mem_singleton.1 he with rfl
      exact ⟨List.prefix_refl _, rfl, hl⟩
    | some node =>
      simp only [mkdirAllRev] at h
      simp only [List.reverse_nil] at hl
      cases node with
      | file c =>
        simp only [hl] at h
        cases h
      | dir =>
        simp only [hl] at h
        cases h
        exact ⟨hl, [], rfl, fun e he => absurd he (List.not_mem_nil e)⟩
  | cons n rp ih =>
    intro fs1 h
    rw [mkdirAllRev] at h
    cases hl : fs.lookup (n :: rp).reverse with
    | none =>
      rw [hl] at h
      cases hrec : mkdirAllRev fs rp with
      | error e =>
        rw [hrec] at h
        cases h
      | ok fs2 =>
        rw [hrec] at h
        cases h
        obtain ⟨_, added, hadd, hall⟩ := ih fs2 hrec
        refine ⟨lookup_cons_same _ _ _, ((n :: rp).reverse, .dir) :: added, ?_, ?_⟩
        · rw [hadd]; rfl
        · intro e he
          rcases List.mem_cons.1 he with rfl | he
          · exact ⟨List.prefix_refl _, rfl, hl⟩
          · obtain ⟨hp, hd, hn⟩ := hall e he
            refine ⟨?_, hd, hn⟩
            rw [List.reverse_cons]
            exact hp.trans (List.prefix_append _ _)
    | some node =>
      rw [hl] at h
      cases node with
      | file c => cases h
      | dir =>
        cases h
        exact ⟨hl, [], rfl, fun e he => absurd he (List.not_mem_nil e)⟩

theorem MkdirAll_ok (env : Env) (fs fs1 : FS) (p : Path) (h : MkdirAll env fs p = .ok fs1) :
    fs1.lookup p = some .dir
      ∧ ∃ added : FS, fs1 = added ++ fs
        ∧ ∀ e ∈ added, e.1 <+: p ∧ e.2 = .dir ∧ fs.lookup e.1 = none := by
  unfold MkdirAll at h
  cases hf : env.fault .mkdirAll p with
  | some e => simp [hf] at h
  | none =>
    simp only [hf] at h
    have key := mkdirAllRev_ok fs p.reverse fs1 h
    rw [List.reverse_reverse] at key
    exact key

/-- `MkdirAll` leaves every path that is not a prefix of its argument as it was. -/
theorem MkdirAll_lookup_other (env : Env) (fs fs1 : FS) (p q : Path)
    (h : MkdirAll env fs p = .ok fs1) (hq : isUnder q p = false) :
    fs1.lookup q = fs.lookup q := by
  obtain ⟨_, added, rfl, hall⟩ := MkdirAll_ok env fs fs1 p h
  apply lookup_append_skip
  intro e he heq
  have := (hall e he).1
  rw [heq] at this
  rw [(isUnder_iff q p).2 this] at hq
  exact Bool.noConfusion hq

/-- `MkdirAll` keeps whatever was already at a path. -/
theorem MkdirAll_lookup_some (env : Env) (fs fs1 : FS) (p q : Path) (x : Node)
    (h : MkdirAll env fs p = .ok fs1) (hq : fs.lookup q = some x) :
    fs1.lookup q = some x := by
  obtain ⟨_, added, rfl, hall⟩ := MkdirAll_ok env fs fs1 p h
  rw [lookup_append_skip _ _ _ ?_, hq]
  intro e he heq
  have := (hall e he).2.2
  rw [heq, hq] at this
  exact Option.noConfusion this

theorem MkTempDir_ok (env : Env) (fs fs2 : FS) (p t : Path) (pattern : String)
    (h : MkTempDir env fs p pattern = .ok (t, fs2)) :
    t = p ++ [Name.temp pattern env.tempName] ∧ fs2 = (t, .dir) :: fs
      ∧ fs.lookup p = some .dir ∧ fs.lookup t = none := by
  unfold MkTempDir at h
  cases hf : env.fault .mkTempDir p with
  | some e => simp [hf] at h
  | none =>
    simp only [hf] at h
    cases hl : fs.lookup p with
    | none => simp [hl] at h
    | some node =>
      cases node with
      | file c => simp [hl] at h
      | dir =>
        simp only [hl] at h
        cases ht : fs.lookup (p ++ [Name.temp pattern env.tempName]) with
        | some x => simp [ht] at h
        | none =>
          simp only [ht] at h
          injection h with h
          injection h with h1 h2
          subst h1 h2
          exact ⟨rfl, rfl, rfl, ht⟩

theorem extractArchive_ok (env : Env) (fs fs3 : FS) (file : Node) (dest : Path)
    (err : Option String) (h : extractArchive env fs file dest = (fs3, err)) :
    ∃ added : FS, fs3 = added ++ fs ∧ ∀ e ∈ added, dest <+: e.1 := by
  unfold extractArchive at h
  cases file with
  | dir =>
    simp only at h
    injection h with h1 h2
    exact ⟨[], by rw [← h1]; rfl, fun e he => absurd he (List.not_mem_nil e)⟩
  | file c =>
    simp only at h
    injection h with h1 h2
    refine ⟨_, h1.symm, ?_⟩
    intro e he
    obtain ⟨a, _, rfl⟩ := List.mem_map.1 he
    exact List.prefix_append _ _

theorem extractArchive_lookup_other (env : Env) (fs fs3 : FS) (file : Node) (dest q : Path)
    (err : Option String) (h : extractArchive env fs file dest = (fs3, err))
    (hq : isUnder dest q = false) : fs3.lookup q = fs.lookup q := by
  obtain ⟨added, rfl, hall⟩ := extractArchive_ok env fs fs3 file dest err h
  apply lookup_append_skip
  intro e he heq
  have := hall e he
  rw [heq] at this
  rw [(isUnder_iff dest q).2 this] at hq
  exact Bool.noConfusion hq

theorem ReadDir_ok (env : Env) (fs : FS) (p : Path) (files : List Path)
    (h : ReadDir env fs p = .ok files) :
    files = entriesOf fs p ∧ fs.lookup p = some .dir := by
  unfold ReadDir at h
  cases hf : env.fault .readDir p with
  | some e => simp [hf] at h
  | none =>
    simp only [hf] at h
    cases hl : fs.lookup p with
    | none => simp [hl] at h
    | some node =>
      cases node with
      | file c => simp [hl] at h
      | dir =>
        simp only [hl] at h
        injection h with h
        exact ⟨h.symm, rfl⟩

theorem mem_entriesOf (fs : FS) (p c : Path) :
    c ∈ entriesOf fs p ↔ (∃ node, (c, node) ∈ fs) ∧ isChild p c = true := by
  unfold entriesOf
  simp only [List.mem_map, List.mem_filter]
  constructor
  · rintro ⟨⟨k, v⟩, ⟨hm, hc⟩, rfl⟩
    exact ⟨⟨v, hm⟩, hc⟩
  · rintro ⟨⟨v, hm⟩, hc⟩
    exact ⟨(c, v), ⟨hm, hc⟩, rfl⟩

theorem isChild_iff (p c : Path) : isChild p c = true ↔ ∃ n, c = p ++ [n] := by
  unfold isChild Parent
  simp only [Bool.and_eq_true, decide_eq_true_eq]
  constructor
  · rintro ⟨hne, hp⟩
    refine ⟨c.getLast hne, ?_⟩
    rw [← hp]
    exact (List.dropLast_append_getLast hne).symm
  · rintro ⟨n, rfl⟩
    simp

theorem mem_of_lookup (fs : FS) (q : Path) (x : Node) (h : fs.lookup q = some x) :
    (q, x) ∈ fs := by
  induction fs with
  | nil => simp at h
  | cons e rest ih =>
    obtain ⟨k, v⟩ := e
    by_cases hk : q = k
    · subst hk
      simp [List.lookup_cons] at h
      subst h
      exact List.mem_cons_self _ _
    · have : (q == k) = false := by simpa using hk
      simp only [List.lookup_cons, this] at h
      exact List.mem_cons_of_mem _ (ih h)

theorem lookup_isSome_of_mem (fs : FS) (q : Path) (x : Node) (h : (q, x) ∈ fs) :
    ∃ y, fs.lookup q = some y := by
  induction fs with
  | nil => simp at h
  | cons e rest ih =>
    obtain ⟨k, v⟩ := e
    by_cases hk : q = k
    · subst hk
      exact ⟨v, lookup_cons_same _ _ _⟩
    · have hne : (q, x) ≠ (k, v) := fun hh => hk (congrArg Prod.fst hh)
      rcases List.mem_cons.1 h with hh | hh
      · exact absurd hh hne
      · obtain ⟨y, hy⟩ := ih hh
        exact ⟨y, by rw [lookup_cons_ne k q v rest (fun e => hk e.symm)]; exact hy⟩


/-! ## Renaming a tree -/

theorem Rename_ok (env : Env) (fs fs1 : FS) (src dst : Path)
    (h : Rename env fs src dst = .ok fs1) :
    ∃ node, fs.lookup src = some node
      ∧ fs.lookup dst ≠ some .dir
      ∧ fs.any (fun e => isStrictlyUnder dst e.1) = false
      ∧ ((src = dst ∧ fs1 = fs)
        ∨ (src ≠ dst ∧ isUnder src dst = false
          ∧ fs.lookup (Parent dst) = some .dir ∧ fs1 = moveTree fs src dst)) := by
  unfold Rename at h
  cases hf : env.fault .rename src with
  | some e => rw [hf] at h; cases h
  | none =>
    rw [hf] at h
    cases hl : fs.lookup src with
    | none => rw [hl] at h; cases h
    | some node =>
      rw [hl] at h
      simp only at h
      cases hd : decide (fs.lookup dst = some .dir) with
      | true => simp [hd] at h
      | false =>
        cases ha : fs.any (fun e => isStrictlyUnder dst e.1) with
        | true => simp [hd, ha] at h
        | false =>
          simp only [hd, ha, Bool.or_self, Bool.false_eq_true, if_false] at h
          refine ⟨node, rfl, of_decide_eq_false hd, rfl, ?_⟩
          by_cases hsd : src = dst
          · left
            simp only [hsd, if_true] at h
            injection h with h
            exact ⟨hsd, h.symm⟩
          · right
            simp only [hsd, if_false] at h
            cases hu : isUnder src dst with
            | true => simp [hu] at h
            | false =>
              simp only [hu, Bool.false_eq_true, if_false] at h
              refine ⟨hsd, rfl, ?_⟩
              split at h
              · cases h
              · split at h
                · rename_i hp
                  injection h with h
                  exact ⟨hp, h.symm⟩
                · cases h

theorem lookup_append_some (a b : FS) (q : Path) (x : Node) (h : a.lookup q = some x) :
    (a ++ b).lookup q = some x := by
  induction a with
  | nil => simp at h
  | cons e rest ih =>
    obtain ⟨k, v⟩ := e
    by_cases hk : q = k
    · subst hk
      simp only [List.cons_append, lookup_cons_same] at h ⊢
      exact h
    · rw [List.cons_append, lookup_cons_ne k q v _ (fun e => hk e.symm)]
      rw [lookup_cons_ne k q v _ (fun e => hk e.symm)] at h
      exact ih h

theorem drop_eq_nil_of_isPrefix (src k : Path) (h : src <+: k) :
    k.drop src.length = [] ↔ k = src := by
  obtain ⟨t, rfl⟩ := h
  simp

theorem lookup_moved (fs : FS) (src dst : Path) :
    ((fs.filter (fun e => isUnder src e.1)).map
      (fun e => (dst ++ e.1.drop src.length, e.2))).lookup dst = fs.lookup src := by
  induction fs with
  | nil => rfl
  | cons e rest ih =>
    obtain ⟨k, v⟩ := e
    by_cases hu : isUnder src k = true
    · simp only [List.filter_cons, hu, if_true, List.map_cons]
      by_cases hk : k = src
      · subst hk
        simp [lookup_cons_same]
      · have hd : k.drop src.length ≠ [] := fun hh =>
          hk ((drop_eq_nil_of_isPrefix src k ((isUnder_iff src k).1 hu)).1 hh)
        rw [lookup_cons_ne _ dst v _ (by
          intro hh
          exact hd (by simpa using hh)), lookup_cons_ne k src v _ hk]
        exact ih
    · have hk : k ≠ src := by
        intro hh
        subst hh
        exact hu (isUnder_self k)
      simp only [List.filter_cons, hu, Bool.false_eq_true, if_false]
      rw [lookup_cons_ne k src v _ hk]
      exact ih

theorem mem_moveTree (fs : FS) (src dst : Path) (e : Path × Node)
    (h : e ∈ moveTree fs src dst) :
    (∃ t, e.1 = dst ++ t ∧ (src ++ t, e.2) ∈ fs)
      ∨ (e ∈ fs ∧ isUnder src e.1 = false ∧ isUnder dst e.1 = false) := by
  unfold moveTree at h
  rcases List.mem_append.1 h with h | h
  · left
    obtain ⟨a, ha, rfl⟩ := List.mem_map.1 h
    obtain ⟨ham, hau⟩ := List.mem_filter.1 ha
    obtain ⟨t, ht⟩ := (isUnder_iff src a.1).1 hau
    refine ⟨t, ?_, ?_⟩
    · simp [← ht]
    · rw [ht]
      exact ham
  · right
    obtain ⟨hm, hp⟩ := List.mem_filter.1 h
    simp only [Bool.and_eq_true, Bool.not_eq_true'] at hp
    exact ⟨hm, hp.1, hp.2⟩

theorem lookup_moveTree_dst (fs : FS) (src dst : Path) (node : Node)
    (h : fs.lookup src = some node) : (moveTree fs src dst).lookup dst = some node := by
  unfold moveTree
  apply lookup_append_some
  rw [lookup_moved]
  exact h

theorem lookup_moveTree_other (fs : FS) (src dst q : Path)
    (hs : isUnder src q = false) (hd : isUnder dst q = false) :
    (moveTree fs src dst).lookup q = fs.lookup q := by
  unfold moveTree
  rw [lookup_append_skip]
  · rw [lookup_filter_path (fun x => !isUnder src x && !isUnder dst x)]
    simp [hs, hd]
  · intro e he heq
    obtain ⟨a, _, rfl⟩ := List.mem_map.1 he
    have : isUnder dst q = true := by
      rw [← heq]
      exact (isUnder_iff _ _).2 (List.prefix_append _ _)
    rw [hd] at this
    exact Bool.noConfusion this

theorem contents_moved (fs : FS) (src dst : Path) :
    contents ((fs.filter (fun e => isUnder src e.1)).map
      (fun e => (dst ++ e.1.drop src.length, e.2))) dst = contents fs src := by
  unfold contents
  induction fs with
  | nil => rfl
  | cons e rest ih =>
    obtain ⟨k, v⟩ := e
    by_cases hu : isUnder src k = true
    · have hpre := (isUnder_iff src k).1 hu
      by_cases hk : k = src
      · subst hk
        have h1 : isStrictlyUnder dst (dst ++ List.drop k.length k) = false := by
          simp [isStrictlyUnder]
        have h2 : isStrictlyUnder k k = false := by simp [isStrictlyUnder]
        simp only [List.filter_cons, hu, if_true, List.map_cons, h1, h2,
          Bool.false_eq_true, if_false]
        exact ih
      · have hd : k.drop src.length ≠ [] := fun hh =>
          hk ((drop_eq_nil_of_isPrefix src k hpre).1 hh)
        have h1 : isStrictlyUnder dst (dst ++ List.drop src.length k) = true := by
          rw [isStrictlyUnder_iff]
          exact ⟨List.prefix_append _ _, by simpa using hd⟩
        have h2 : isStrictlyUnder src k = true := by
          rw [isStrictlyUnder_iff]
          exact ⟨hpre, hk⟩
        simp only [List.filter_cons, hu, if_true, List.map_cons, h1, h2]
        rw [ih]
        simp
    · have h2 : isStrictlyUnder src k = false := by
        cases hh : isStrictlyUnder src k with
        | false => rfl
        | true => exact absurd ((isUnder_iff _ _).2 ((isStrictlyUnder_iff _ _).1 hh).1) hu
      simp only [List.filter_cons, hu, Bool.false_eq_true, if_false, h2]
      exact ih

theorem contents_append (a b : FS) (p : Path) :
    contents (a ++ b) p = contents a p ++ contents b p := by
  unfold contents
  simp [List.filter_append]

theorem contents_eq_nil (fs : FS) (p : Path)
    (h : ∀ e ∈ fs, isStrictlyUnder p e.1 = false) : contents fs p = [] := by
  unfold contents
  rw [List.map_eq_nil_iff, List.filter_eq_nil_iff]
  intro e he
  rw [h e he]
  exact Bool.false_ne_true

theorem contents_moveTree (fs : FS) (src dst : Path) :
    contents (moveTree fs src dst) dst = contents fs src := by
  unfold moveTree
  rw [contents_append, contents_moved, contents_eq_nil _ dst, List.append_nil]
  intro e he
  obtain ⟨_, hp⟩ := List.mem_filter.1 he
  simp only [Bool.and_eq_true, Bool.not_eq_true'] at hp
  cases hh : isStrictlyUnder dst e.1 with
  | false => rfl
  | true =>
    have := (isUnder_iff _ _).2 ((isStrictlyUnder_iff _ _).1 hh).1
    rw [hp.2] at this
    exact Bool.noConfusion this

theorem contents_RemoveAll (env : Env) (fs : FS) (p q : Path)
    (h : ∀ e ∈ fs, isStrictlyUnder q e.1 = true → isUnder p e.1 = false) :
    contents (RemoveAll env fs p).1 q = contents fs q := by
  unfold contents RemoveAll
  simp only
  rw [List.filter_filter]
  congr 1
  apply List.filter_congr
  intro e he
  cases hh : isStrictlyUnder q e.1 with
  | false => rfl
  | true => simp [leftByRemoveAll_other env p e.1 (h e he hh)]

theorem lookup_moveTree_src (fs : FS) (src dst : Path)
    (hd : isUnder dst src = false) : (moveTree fs src dst).lookup src = none := by
  unfold moveTree
  rw [lookup_append_skip]
  · rw [lookup_filter_path (fun x => !isUnder src x && !isUnder dst x)]
    simp [isUnder_self]
  · intro e he heq
    obtain ⟨a, _, rfl⟩ := List.mem_map.1 he
    have : isUnder dst src = true := by
      rw [← heq]
      exact (isUnder_iff _ _).2 (List.prefix_append _ _)
    rw [hd] at this
    exact Bool.noConfusion this

/-! ## The deferred cleanup of the destination's parent -/

theorem removeParentIfEmpty_of_entry (env : Env) (fs : FS) (p c : Path)
    (h : c ∈ entriesOf fs p) : removeParentIfEmpty env fs p = fs := by
  unfold removeParentIfEmpty IsDirEmpty
  cases hr : ReadDir env fs p with
  | error e => rfl
  | ok files =>
    obtain ⟨hf, _⟩ := ReadDir_ok env fs p files hr
    subst hf
    cases hc : entriesOf fs p with
    | nil => rw [hc] at h; exact absurd h (List.not_mem_nil c)
    | cons a l => simp

theorem isUnder_false_of_not_isPrefix (p q : Path) (h : ¬ p <+: q) : isUnder p q = false := by
  cases hh : isUnder p q with
  | false => rfl
  | true => exact absurd ((isUnder_iff p q).1 hh) h

theorem not_prefix_of_isUnder_false (p q : Path) (h : isUnder p q = false) : ¬ p <+: q := by
  intro hp
  rw [(isUnder_iff p q).2 hp] at h
  exact Bool.noConfusion h

theorem Parent_isPrefix (p : Path) : Parent p <+: p := List.dropLast_prefix p

theorem not_prefix_Parent (p : Path) (h : p ≠ []) : ¬ p <+: Parent p := by
  intro hp
  have h1 := hp.length_le
  have h2 : p.length ≠ 0 := fun hh => h (List.length_eq_zero.1 hh)
  unfold Parent at h1
  rw [List.length_dropLast] at h1
  omega

/-- After a successful rename of an extracted root to a destination outside the
temporary directory, the two deferred cleanups leave the destination, its
contents and its parent in place, and the root is gone from where it was. -/
theorem install_moved (env : Env) (fs4 fs5 : FS) (r destDir tempDir : Path)
    (hren : Rename env fs4 r destDir = .ok fs5)
    (hr : isUnder tempDir r = true)
    (hsep : isUnder tempDir destDir = false) :
    ∃ node, fs4.lookup r = some node ∧ isUnder r destDir = false
      ∧ (RemoveAll env (removeParentIfEmpty env fs5 (Parent destDir)) tempDir).1.lookup destDir
          = some node
      ∧ contents (RemoveAll env (removeParentIfEmpty env fs5 (Parent destDir)) tempDir).1
          destDir = contents fs4 r
      ∧ (RemoveAll env (removeParentIfEmpty env fs5 (Parent destDir)) tempDir).1.lookup
          (Parent destDir) = some .dir
      ∧ destDir ∈ entriesOf
          (RemoveAll env (removeParentIfEmpty env fs5 (Parent destDir)) tempDir).1
          (Parent destDir)
      ∧ (RemoveAll env (removeParentIfEmpty env fs5 (Parent destDir)) tempDir).1.lookup r
          = none := by
  obtain ⟨node, hl, _, hany, hcase⟩ := Rename_ok env fs4 fs5 r destDir hren
  rcases hcase with ⟨heq, _⟩ | ⟨hne, hu, hpar, rfl⟩
  · subst heq
    rw [hr] at hsep
    exact Bool.noConfusion hsep
  · have hmem : (r, node) ∈ fs4 := mem_of_lookup fs4 r node hl
    have hnone : ∀ e ∈ fs4, isStrictlyUnder destDir e.1 = false := by
      intro e he
      cases hh : isStrictlyUnder destDir e.1 with
      | false => rfl
      | true =>
        have : fs4.any (fun e => isStrictlyUnder destDir e.1) = true :=
          List.any_eq_true.2 ⟨e, he, hh⟩
        rw [hany] at this
        exact Bool.noConfusion this
    have hrd : ¬ destDir <+: r := by
      intro hp
      have := hnone (r, node) hmem
      rw [(isStrictlyUnder_iff destDir r).2 ⟨hp, hne⟩] at this
      exact Bool.noConfusion this
    have hdne : destDir ≠ [] := by
      intro hh
      exact hrd (hh ▸ List.nil_prefix)
    have hsep1 : ¬ tempDir <+: destDir := not_prefix_of_isUnder_false _ _ hsep
    have hld : (moveTree fs4 r destDir).lookup destDir = some node :=
      lookup_moveTree_dst fs4 r destDir node hl
    have hchild : isChild (Parent destDir) destDir = true := by
      simp [isChild, hdne]
    have hent : destDir ∈ entriesOf (moveTree fs4 r destDir) (Parent destDir) :=
      (mem_entriesOf _ _ _).2 ⟨⟨node, mem_of_lookup _ _ _ hld⟩, hchild⟩
    rw [removeParentIfEmpty_of_entry env _ _ _ hent]
    refine ⟨node, hl, hu, ?_, ?_, ?_, ?_, ?_⟩
    · rw [lookup_RemoveAll_other env _ tempDir destDir hsep]
      exact hld
    · rw [contents_RemoveAll, contents_moveTree]
      intro e he hs
      rcases mem_moveTree fs4 r destDir e he with ⟨t, ht, _⟩ | ⟨_, _, hd⟩
      · apply isUnder_false_of_not_isPrefix
        intro hp
        rw [ht] at hp
        rcases List.prefix_or_prefix_of_prefix hp (List.prefix_append destDir t) with h1 | h1
        · exact hsep1 h1
        · exact hrd (h1.trans ((isUnder_iff _ _).1 hr))
      · have := (isUnder_iff _ _).2 ((isStrictlyUnder_iff _ _).1 hs).1
        rw [hd] at this
        exact Bool.noConfusion this
    · have h1 : isUnder tempDir (Parent destDir) = false :=
        isUnder_false_of_not_isPrefix _ _ (fun hp => hsep1 (hp.trans (Parent_isPrefix destDir)))
      have h2 : isUnder r (Parent destDir) = false :=
        isUnder_false_of_not_isPrefix _ _ (fun hp =>
          not_prefix_of_isUnder_false _ _ hu (hp.trans (Parent_isPrefix destDir)))
      have h3 : isUnder destDir (Parent destDir) = false :=
        isUnder_false_of_not_isPrefix _ _ (not_prefix_Parent destDir hdne)
      rw [lookup_RemoveAll_other env _ tempDir _ h1,
        lookup_moveTree_other fs4 r destDir _ h2 h3]
      exact hpar
    · apply (mem_entriesOf _ _ _).2
      exact ⟨⟨node, mem_RemoveAll_other env _ tempDir (destDir, node)
        (mem_of_lookup _ _ _ hld) hsep⟩, hchild⟩
    · exact lookup_RemoveAll_none env _ tempDir r
        (lookup_moveTree_src fs4 r destDir (isUnder_false_of_not_isPrefix _ _ hrd))

/-- A path that ends in a drawn name is not a prefix of a path written with
plain names. -/
theorem temp_not_under_ofStrings (p : Path) (pattern suffix : String) (d : List String) :
    isUnder (p ++ [Name.temp pattern suffix]) (ofStrings d) = false := by
  apply isUnder_false_of_not_isPrefix
  intro hp
  have hmem : Name.temp pattern suffix ∈ ofStrings d :=
    hp.subset (List.mem_append_right p (List.mem_singleton_self _))
  unfold ofStrings at hmem
  obtain ⟨a, _, ha⟩ := List.mem_map.1 hmem
  exact Name.noConfusion ha

/-! ## What a listing tells about the root that is found -/

theorem findPackageRootSpec_some (fs : FS) (files : List Path) (r : Path)
    (h : findPackageRootSpec fs files = .ok (some r)) :
    files.filter (fun f => decide (fs.lookup f = some .dir)) = [r] := by
  unfold findPackageRootSpec at h
  split at h
  · cases h
  · rename_i d hd
    injection h with h
    injection h with h
    rw [hd, h]
  · cases h

theorem findPackageRoot_some (env : Env) (fs : FS) (parent r : Path)
    (h : findPackageRoot env fs parent = .ok (some r)) :
    isChild parent r = true ∧ fs.lookup r = some .dir := by
  unfold findPackageRoot at h
  cases hl : ReadDir env fs parent with
  | error e => rw [hl] at h; cases h
  | ok files =>
    rw [hl] at h
    simp only at h
    rw [findPackageRootLoop_none] at h
    have hf := findPackageRootSpec_some fs files r h
    have hm : r ∈ files.filter (fun f => decide (fs.lookup f = some .dir)) := by
      rw [hf]; exact List.mem_singleton_self r
    obtain ⟨hm1, hm2⟩ := List.mem_filter.1 hm
    rw [(ReadDir_ok env fs parent files hl).1] at hm1
    exact ⟨((mem_entriesOf _ _ _).1 hm1).2, by simpa using hm2⟩

theorem isUnder_of_isChild (p c : Path) (h : isChild p c = true) : isUnder p c = true := by
  obtain ⟨n, rfl⟩ := (isChild_iff p c).1 h
  exact (isUnder_iff _ _).2 (List.prefix_append _ _)


/-! ## `Install`, step by step -/

theorem Install_extracted (release : DownloadResource) (env : Env)
    (downloadDir tempPath destDir archivePath : List String) (tempDir : Path) (file : Node)
    (fs fs1 fs2 fs3 : FS)
    (h1 : MkdirAll env fs (ofStrings tempPath) = .ok fs1)
    (h2 : MkTempDir env fs1 (ofStrings tempPath) "package-" = .ok (tempDir, fs2))
    (h3 : release.ArchivePath downloadDir = .ok archivePath)
    (h4 : osOpen env fs2 (ofStrings archivePath) = .ok file)
    (h5 : extractArchive env fs2 file tempDir = (fs3, none)) :
    Install release env downloadDir tempPath destDir fs
      = ((installExtracted env tempDir (ofStrings destDir) fs3).1,
          (RemoveAll env (installExtracted env tempDir (ofStrings destDir) fs3).2
            tempDir).1) := by
  simp only [Install, h1, h2, installBody, h3, h4, h5]

theorem installExtracted_ok (env : Env) (tempDir destDir : Path) (fs3 : FS)
    (hok : (installExtracted env tempDir destDir fs3).1 = .ok) :
    ∃ r fs4 fs5, findPackageRoot env fs3 tempDir = .ok (some r)
      ∧ MkdirAll env fs3 (Parent destDir) = .ok fs4
      ∧ Rename env fs4 r destDir = .ok fs5
      ∧ (installExtracted env tempDir destDir fs3).2
          = removeParentIfEmpty env fs5 (Parent destDir) := by
  unfold installExtracted at hok ⊢
  cases hroot : findPackageRoot env fs3 tempDir with
  | error e => rw [hroot] at hok; cases hok
  | ok root =>
    rw [hroot] at hok
    cases hmk : MkdirAll env fs3 (Parent destDir) with
    | error e => rw [hmk] at hok; cases hok
    | ok fs4 =>
      rw [hmk] at hok
      simp only at hok ⊢
      cases root with
      | none => simp [installMove] at hok
      | some r =>
        cases hren : Rename env fs4 r destDir with
        | error e => simp [installMove, hren] at hok
        | ok fs5 =>
          exact ⟨r, fs4, fs5, rfl, rfl, hren, by simp [installMove, hren]⟩

theorem Install_ok_steps (release : DownloadResource) (env : Env)
    (downloadDir tempPath destDir : List String) (fs : FS)
    (hok : (Install release env downloadDir tempPath destDir fs).1 = .ok) :
    ∃ fs1 tempDir fs2 archivePath file fs3 r fs4 fs5,
      MkdirAll env fs (ofStrings tempPath) = .ok fs1
        ∧ MkTempDir env fs1 (ofStrings tempPath) "package-" = .ok (tempDir, fs2)
        ∧ release.ArchivePath downloadDir = .ok archivePath
        ∧ osOpen env fs2 (ofStrings archivePath) = .ok file
        ∧ extractArchive env fs2 file tempDir = (fs3, none)
        ∧ findPackageRoot env fs3 tempDir = .ok (some r)
        ∧ MkdirAll env fs3 (Parent (ofStrings destDir)) = .ok fs4
        ∧ Rename env fs4 r (ofStrings destDir) = .ok fs5
        ∧ (Install release env downloadDir tempPath destDir fs).2
            = (RemoveAll env (removeParentIfEmpty env fs5 (Parent (ofStrings destDir)))
                tempDir).1 := by
  cases h1 : MkdirAll env fs (ofStrings tempPath) with
  | error e => simp [Install, h1] at hok
  | ok fs1 =>
    rcases h2 : MkTempDir env fs1 (ofStrings tempPath) "package-" with e | ⟨tempDir, fs2⟩
    · simp [Install, h1, h2] at hok
    · cases h3 : release.ArchivePath downloadDir with
      | error e => simp [Install, h1, h2, installBody, h3] at hok
      | ok archivePath =>
        cases h4 : osOpen env fs2 (ofStrings archivePath) with
        | error e => simp [Install, h1, h2, installBody, h3, h4] at hok
        | ok file =>
          rcases h5 : extractArchive env fs2 file tempDir with ⟨fs3, _ | e⟩
          · rw [Install_extracted release env downloadDir tempPath destDir archivePath
              tempDir file fs fs1 fs2 fs3 h1 h2 h3 h4 h5] at hok ⊢
            obtain ⟨r, fs4, fs5, hroot, hmk, hren, hfin⟩ :=
              installExtracted_ok env tempDir (ofStrings destDir) fs3 hok
            exact ⟨fs1, tempDir, fs2, archivePath, file, fs3, r, fs4, fs5, rfl, h2, rfl,
              h4, h5, hroot, hmk, hren, by simp only [hfin]⟩
          · simp [Install, h1, h2, installBody, h3, h4, h5] at hok

theorem tempDir_not_under_caller (env : Env) (fs1 fs2 : FS) (tempPath : Path)
    (tempDir : Path) (d : List String)
    (h2 : MkTempDir env fs1 tempPath "package-" = .ok (tempDir, fs2)) :
    isUnder tempDir (ofStrings d) = false := by
  obtain ⟨ht, _⟩ := MkTempDir_ok env fs1 fs2 tempPath tempDir "package-" h2
  rw [ht]
  exact temp_not_under_ofStrings tempPath "package-" env.tempName d

/-! ## Cleanup of the temporary directory -/

/-- C4 (amended). Once the temporary subdirectory was created, it does not
exist when `Install` is left, whichever way the call ends, and nothing below it
is left either, provided the deferred `tempDir.RemoveAll()`, whose error
`Install` discards, does not fail. -/
theorem Install_removes_tempDir (release : DownloadResource) (env : Env)
    (downloadDir tempPath destDir : List String) (tempDir : Path) (fs fs1 fs2 : FS)
    (h1 : MkdirAll env fs (ofStrings tempPath) = .ok fs1)
    (h2 : MkTempDir env fs1 (ofStrings tempPath) "package-" = .ok (tempDir, fs2))
    (hrm : env.fault .removeAll tempDir = none) :
    (Install release env downloadDir tempPath destDir fs).2.lookup tempDir = none
      ∧ ∀ q, isUnder tempDir q = true →
          (Install release env downloadDir tempPath destDir fs).2.lookup q = none := by
  have key : ∀ q, isUnder tempDir q = true →
      (Install release env downloadDir tempPath destDir fs).2.lookup q = none := by
    intro q hq
    simp only [Install, h1, h2]
    exact lookup_RemoveAll_done env _ tempDir q hrm hq
  exact ⟨key tempDir (isUnder_self tempDir), key⟩

/-! ## A successful install -/

theorem contents_MkdirAll (env : Env) (fs fs1 : FS) (p d : Path)
    (h : MkdirAll env fs p = .ok fs1) (hd : ¬ d <+: p) :
    contents fs1 d = contents fs d := by
  obtain ⟨_, added, rfl, hall⟩ := MkdirAll_ok env fs fs1 p h
  rw [contents_append, contents_eq_nil added d, List.nil_append]
  intro e he
  cases hh : isStrictlyUnder d e.1 with
  | false => rfl
  | true => exact absurd (((isStrictlyUnder_iff _ _).1 hh).1.trans (hall e he).1) hd

/-- C3 (amended). For every archive that extracts to exactly one top-level
directory `D`, whenever `Install` returns success, `destDir` is a directory
whose contents are exactly those `D` had after extraction and the path of `D`
under the temporary directory no longer exists; the temporary subdirectory no
longer exists either, provided the deferred `tempDir.RemoveAll()`, whose error
`Install` discards, did not fail. -/
theorem Install_ok_installs (release : DownloadResource) (env : Env)
    (downloadDir tempPath destDir archivePath : List String) (tempDir D : Path)
    (file : Node) (files : List Path) (fs fs1 fs2 fs3 : FS)
    (h1 : MkdirAll env fs (ofStrings tempPath) = .ok fs1)
    (h2 : MkTempDir env fs1 (ofStrings tempPath) "package-" = .ok (tempDir, fs2))
    (h3 : release.ArchivePath downloadDir = .ok archivePath)
    (h4 : osOpen env fs2 (ofStrings archivePath) = .ok file)
    (h5 : extractArchive env fs2 file tempDir = (fs3, none))
    (h6 : ReadDir env fs3 tempDir = .ok files)
    (h7 : files.filter (fun f => (IsDir fs3 f).1) = [D])
    (hok : (Install release env downloadDir tempPath destDir fs).1 = .ok) :
    (Install release env downloadDir tempPath destDir fs).2.lookup (ofStrings destDir)
        = some .dir
      ∧ contents (Install release env downloadDir tempPath destDir fs).2 (ofStrings destDir)
          = contents fs3 D
      ∧ (Install release env downloadDir tempPath destDir fs).2.lookup D = none
      ∧ (env.fault .removeAll tempDir = none →
          (Install release env downloadDir tempPath destDir fs).2.lookup tempDir = none) := by
  obtain ⟨fs1a, tempDira, fs2a, ap, file1, fs3a, r, fs4, fs5, h1a, h2a, h3a, h4a, h5a, hroot,
    hmk, hren, hfin⟩ := Install_ok_steps release env downloadDir tempPath destDir fs hok
  rw [h1] at h1a
  injection h1a with h1a
  subst h1a
  rw [h2] at h2a
  injection h2a with h2a
  injection h2a with h2a h2b
  subst h2a h2b
  rw [h3] at h3a
  injection h3a with h3a
  subst h3a
  rw [h4] at h4a
  injection h4a with h4a
  subst h4a
  rw [h5] at h5a
  injection h5a with h5a _
  subst h5a
  have hrD : r = D := by
    rw [findPackageRoot_of_listing env fs3 tempDir files h6] at hroot
    have := findPackageRootSpec_some fs3 files r hroot
    simp only [IsDir] at h7
    rw [h7] at this
    injection this with this
    exact this.symm
  subst hrD
  obtain ⟨hchild, hdir⟩ := findPackageRoot_some env fs3 tempDir r hroot
  have hunder := isUnder_of_isChild tempDir r hchild
  have hsep := tempDir_not_under_caller env fs1 fs2 (ofStrings tempPath) tempDir destDir h2
  obtain ⟨node, hl, hu, hdest, hcont, _, _, hgone⟩ :=
    install_moved env fs4 fs5 r (ofStrings destDir) tempDir hren hunder hsep
  have hnode : node = .dir := by
    rw [MkdirAll_lookup_some env fs3 fs4 (Parent (ofStrings destDir)) r .dir hmk hdir] at hl
    injection hl with hl
    exact hl.symm
  subst hnode
  refine ⟨?_, ?_, ?_, ?_⟩
  · rw [hfin]
    exact hdest
  · rw [hfin, hcont]
    apply contents_MkdirAll env fs3 fs4 (Parent (ofStrings destDir)) r hmk
    intro hp
    exact not_prefix_of_isUnder_false _ _ hu (hp.trans (Parent_isPrefix (ofStrings destDir)))
  · rw [hfin]
    exact hgone
  · intro hrm
    rw [hfin]
    exact lookup_RemoveAll_done env _ tempDir tempDir hrm (isUnder_self tempDir)

/-- C6. If the parent of `destDir` did not exist before the call and `Install`
returns success, then after the call the parent is a directory and `destDir`
is one of its entries: neither deferred cleanup removes it. -/
theorem Install_ok_parent (release : DownloadResource) (env : Env)
    (downloadDir tempPath destDir : List String) (fs : FS)
    (_hnew : fs.lookup (Parent (ofStrings destDir)) = none)
    (hok : (Install release env downloadDir tempPath destDir fs).1 = .ok) :
    (Install release env downloadDir tempPath destDir fs).2.lookup
        (Parent (ofStrings destDir)) = some .dir
      ∧ ofStrings destDir ∈ entriesOf (Install release env downloadDir tempPath destDir fs).2
          (Parent (ofStrings destDir)) := by
  obtain ⟨fs1, tempDir, fs2, ap, file1, fs3, r, fs4, fs5, _, h2, _, _, _, hroot, hmk, hren,
    hfin⟩ := Install_ok_steps release env downloadDir tempPath destDir fs hok
  obtain ⟨hchild, _⟩ := findPackageRoot_some env fs3 tempDir r hroot
  have hsep := tempDir_not_under_caller env fs1 fs2 (ofStrings tempPath) tempDir destDir h2
  obtain ⟨node, _, _, _, _, hpar, hent, _⟩ :=
    install_moved env fs4 fs5 r (ofStrings destDir) tempDir hren
      (isUnder_of_isChild tempDir r hchild) hsep
  rw [hfin]
  exact ⟨hpar, hent⟩

/-! ## Failing installs -/

theorem installExtracted_ambiguous (env : Env) (tempDir destDir a b : Path)
    (files rest : List Path) (fs3 : FS)
    (h6 : ReadDir env fs3 tempDir = .ok files)
    (h7 : files.filter (fun f => (IsDir fs3 f).1) = a :: b :: rest) :
    installExtracted env tempDir destDir fs3
      = (.error ("searching package root dir: "
          ++ ("no unique root dir in archive, found '" ++ pathString a
            ++ "' and '" ++ pathString b ++ "'")), fs3) := by
  unfold installExtracted
  rw [findPackageRoot_of_listing env fs3 tempDir files h6]
  simp only [IsDir] at h7
  simp only [findPackageRootSpec, h7]

/-- C2 (amended). For every extracted temp directory whose immediate entries
contain two or more directories (all earlier steps succeeding), `Install`
returns an ambiguous-root error whose message names the first two of those
directories, and, provided `destDir` is neither `tempPath` nor one of its
ancestors, a `destDir` that did not exist before the call is not created. -/
theorem Install_ambiguous_root (release : DownloadResource) (env : Env)
    (downloadDir tempPath destDir archivePath : List String) (tempDir a b : Path)
    (file : Node) (files rest : List Path) (fs fs1 fs2 fs3 : FS)
    (h1 : MkdirAll env fs (ofStrings tempPath) = .ok fs1)
    (h2 : MkTempDir env fs1 (ofStrings tempPath) "package-" = .ok (tempDir, fs2))
    (h3 : release.ArchivePath downloadDir = .ok archivePath)
    (h4 : osOpen env fs2 (ofStrings archivePath) = .ok file)
    (h5 : extractArchive env fs2 file tempDir = (fs3, none))
    (h6 : ReadDir env fs3 tempDir = .ok files)
    (h7 : files.filter (fun f => (IsDir fs3 f).1) = a :: b :: rest) :
    (Install release env downloadDir tempPath destDir fs).1
        = .error ("searching package root dir: "
            ++ ("no unique root dir in archive, found '" ++ pathString a
              ++ "' and '" ++ pathString b ++ "'"))
      ∧ (fs.lookup (ofStrings destDir) = none →
          isUnder (ofStrings destDir) (ofStrings tempPath) = false →
          (Install release env downloadDir tempPath destDir fs).2.lookup (ofStrings destDir)
            = none) := by
  rw [Install_extracted release env downloadDir tempPath destDir archivePath tempDir
    file fs fs1 fs2 fs3 h1 h2 h3 h4 h5,
    installExtracted_ambiguous env tempDir (ofStrings destDir) a b files rest fs3 h6 h7]
  refine ⟨rfl, ?_⟩
  intro hnew hsep
  show (RemoveAll env fs3 tempDir).1.lookup (ofStrings destDir) = none
  have hu := tempDir_not_under_caller env fs1 fs2 (ofStrings tempPath) tempDir destDir h2
  rw [lookup_RemoveAll_other env fs3 tempDir _ hu,
    extractArchive_lookup_other env fs2 fs3 file tempDir (ofStrings destDir) none h5 hu]
  obtain ⟨_, hfs2, _, _⟩ := MkTempDir_ok env fs1 fs2 (ofStrings tempPath) tempDir "package-" h2
  have hne : tempDir ≠ ofStrings destDir := by
    intro hh
    rw [hh, isUnder_self] at hu
    exact Bool.noConfusion hu
  rw [hfs2, lookup_cons_ne tempDir (ofStrings destDir) .dir fs1 hne,
    MkdirAll_lookup_other env fs fs1 (ofStrings tempPath) (ofStrings destDir) h1 hsep]
  exact hnew

/-- C7 (amended). If the parent of `destDir` did not exist before the call, is
not `tempPath` itself, and the rename of the extracted root to `destDir` fails
while the listing of the parent succeeds and the removal of the parent, whose
error `Install` discards, does not fail, then when `Install` returns the parent
is absent or has an entry; if the listing found it empty, it has been
removed. -/
theorem Install_rename_fails_parent (release : DownloadResource) (env : Env)
    (downloadDir tempPath destDir archivePath : List String) (tempDir r : Path)
    (file : Node) (files : List Path) (err : String) (fs fs1 fs2 fs3 fs4 : FS)
    (h1 : MkdirAll env fs (ofStrings tempPath) = .ok fs1)
    (h2 : MkTempDir env fs1 (ofStrings tempPath) "package-" = .ok (tempDir, fs2))
    (h3 : release.ArchivePath downloadDir = .ok archivePath)
    (h4 : osOpen env fs2 (ofStrings archivePath) = .ok file)
    (h5 : extractArchive env fs2 file tempDir = (fs3, none))
    (hroot : findPackageRoot env fs3 tempDir = .ok (some r))
    (h8 : MkdirAll env fs3 (Parent (ofStrings destDir)) = .ok fs4)
    (h9 : Rename env fs4 r (ofStrings destDir) = .error err)
    (h10 : ReadDir env fs4 (Parent (ofStrings destDir)) = .ok files)
    (hrm : env.fault .removeAll (Parent (ofStrings destDir)) = none)
    (_hnew : fs.lookup (Parent (ofStrings destDir)) = none)
    (hne : Parent (ofStrings destDir) ≠ ofStrings tempPath) :
    (Install release env downloadDir tempPath destDir fs).1
        = .error ("moving extracted archive to destination dir: " ++ err)
      ∧ ((Install release env downloadDir tempPath destDir fs).2.lookup
            (Parent (ofStrings destDir)) = none
        ∨ entriesOf (Install release env downloadDir tempPath destDir fs).2
            (Parent (ofStrings destDir)) ≠ [])
      ∧ (files = [] →
          (Install release env downloadDir tempPath destDir fs).2.lookup
            (Parent (ofStrings destDir)) = none) := by
  rw [Install_extracted release env downloadDir tempPath destDir archivePath tempDir
    file fs fs1 fs2 fs3 h1 h2 h3 h4 h5]
  simp only [installExtracted, hroot, h8, installMove, h9, removeParentIfEmpty, IsDirEmpty, h10]
  refine ⟨trivial, ?_⟩
  cases files with
  | nil =>
    have key : (RemoveAll env (RemoveAll env fs4 (Parent (ofStrings destDir))).1
        tempDir).1.lookup (Parent (ofStrings destDir)) = none :=
      lookup_RemoveAll_none env _ tempDir _
        (lookup_RemoveAll_done env fs4 _ _ hrm (isUnder_self _))
    simp only [List.length_nil, decide_True]
    exact ⟨Or.inl key, fun _ => key⟩
  | cons c l =>
    simp only [List.length_cons, Nat.add_one_ne_zero, decide_False]
    refine ⟨Or.inr ?_, fun h => List.noConfusion h⟩
    obtain ⟨hfiles, _⟩ := ReadDir_ok env fs4 (Parent (ofStrings destDir)) (c :: l) h10
    have hc : c ∈ entriesOf fs4 (Parent (ofStrings destDir)) := by
      rw [← hfiles]
      exact List.mem_cons_self c l
    obtain ⟨⟨node, hmem⟩, hchild⟩ := (mem_entriesOf _ _ _).1 hc
    have hsep := tempDir_not_under_caller env fs1 fs2 (ofStrings tempPath) tempDir destDir h2
    have hu : isUnder tempDir c = false := by
      apply isUnder_false_of_not_isPrefix
      intro hp
      obtain ⟨n, hn⟩ := (isChild_iff _ _).1 hchild
      rw [hn] at hp
      rcases List.prefix_concat_iff.1 hp with heq | hpre
      · obtain ⟨ht, _⟩ := MkTempDir_ok env fs1 fs2 (ofStrings tempPath) tempDir "package-" h2
        rw [ht] at heq
        exact hne (List.append_inj_left' heq rfl).symm
      · exact not_prefix_of_isUnder_false _ _ hsep
          (hpre.trans (Parent_isPrefix (ofStrings destDir)))
    intro hnil
    have : c ∈ entriesOf (RemoveAll env fs4 tempDir).1 (Parent (ofStrings destDir)) :=
      (mem_entriesOf _ _ _).2
        ⟨⟨node, mem_RemoveAll_other env fs4 tempDir (c, node) hmem hu⟩, hchild⟩
    rw [hnil] at this
    exact List.not_mem_nil c this

/-- C1. With no directory among the immediate entries of the extracted temp
directory, `Install` returns no missing-root error: after `findPackageRoot`
gave a nil root it creates the parent of `destDir`, returning that step's
error as it is, and otherwise panics on the rename of the nil root. -/
theorem Install_no_root (release : DownloadResource) (env : Env)
    (downloadDir tempPath destDir archivePath : List String) (tempDir : Path) (file : Node)
    (files : List Path) (fs fs1 fs2 fs3 : FS)
    (h1 : MkdirAll env fs (ofStrings tempPath) = .ok fs1)
    (h2 : MkTempDir env fs1 (ofStrings tempPath) "package-" = .ok (tempDir, fs2))
    (h3 : release.ArchivePath downloadDir = .ok archivePath)
    (h4 : osOpen env fs2 (ofStrings archivePath) = .ok file)
    (h5 : extractArchive env fs2 file tempDir = (fs3, none))
    (h6 : ReadDir env fs3 tempDir = .ok files)
    (h7 : files.filter (fun f => (IsDir fs3 f).1) = []) :
    (Install release env downloadDir tempPath destDir fs).1
      = match MkdirAll env fs3 (Parent (ofStrings destDir)) with
        | .error err => .error err
        | .ok _ => .panic "runtime error: invalid memory address or nil pointer dereference" := by
  rw [Install_extracted release env downloadDir tempPath destDir archivePath tempDir
    file fs fs1 fs2 fs3 h1 h2 h3 h4 h5]
  unfold installExtracted
  rw [findPackageRoot_of_listing env fs3 tempDir files h6]
  simp only [IsDir] at h7
  simp only [findPackageRootSpec, h7]
  cases MkdirAll env fs3 (Parent (ofStrings destDir)) <;> rfl

/-- C5. When the creation of the parent of `destDir` fails, `Install` returns
that underlying error as it is, without a context phrase. -/
theorem Install_parent_error_unwrapped (release : DownloadResource) (env : Env)
    (downloadDir tempPath destDir archivePath : List String) (tempDir : Path) (file : Node)
    (root : Option Path) (err : String) (fs fs1 fs2 fs3 : FS)
    (h1 : MkdirAll env fs (ofStrings tempPath) = .ok fs1)
    (h2 : MkTempDir env fs1 (ofStrings tempPath) "package-" = .ok (tempDir, fs2))
    (h3 : release.ArchivePath downloadDir = .ok archivePath)
    (h4 : osOpen env fs2 (ofStrings archivePath) = .ok file)
    (h5 : extractArchive env fs2 file tempDir = (fs3, none))
    (hroot : findPackageRoot env fs3 tempDir = .ok root)
    (h8 : MkdirAll env fs3 (Parent (ofStrings destDir)) = .error err) :
    (Install release env downloadDir tempPath destDir fs).1 = .error err := by
  rw [Install_extracted release env downloadDir tempPath destDir archivePath tempDir
    file fs fs1 fs2 fs3 h1 h2 h3 h4 h5]
  simp only [installExtracted, hroot, h8]

/-! ## The theorems at concrete inputs -/

theorem Install_removes_tempDir_witness :
    (Install demoRelease crossDeviceEnv ["dl"] ["tmp"] ["opt", "tool"]
        (demoFS "tool")).2.lookup demoTemp = none :=
  (Install_removes_tempDir demoRelease crossDeviceEnv ["dl"] ["tmp"] ["opt", "tool"]
    demoTemp (demoFS "tool") ((ofStrings ["tmp"], .dir) :: demoFS "tool")
    (demoStaged "tool") (by decide) (by decide) (by decide)).1

theorem Install_ok_installs_witness :
    (Install demoRelease demoEnv ["dl"] ["tmp"] ["opt", "tool"] (demoFS "tool")).2.lookup
        (ofStrings ["opt", "tool"]) = some .dir
      ∧ contents (Install demoRelease demoEnv ["dl"] ["tmp"] ["opt", "tool"] (demoFS "tool")).2
          (ofStrings ["opt", "tool"])
          = contents (demoExtracted "tool") (demoTemp ++ ofStrings ["tool-1.0"])
      ∧ (Install demoRelease demoEnv ["dl"] ["tmp"] ["opt", "tool"] (demoFS "tool")).2.lookup
          (demoTemp ++ ofStrings ["tool-1.0"]) = none
      ∧ (demoEnv.fault .removeAll demoTemp = none →
          (Install demoRelease demoEnv ["dl"] ["tmp"] ["opt", "tool"]
            (demoFS "tool")).2.lookup demoTemp = none) :=
  Install_ok_installs demoRelease demoEnv ["dl"] ["tmp"] ["opt", "tool"]
    ["dl", "tool-1.0.zip"] demoTemp (demoTemp ++ ofStrings ["tool-1.0"]) (.file "tool")
    [demoTemp ++ ofStrings ["tool-1.0"]] (demoFS "tool")
    ((ofStrings ["tmp"], .dir) :: demoFS "tool") (demoStaged "tool") (demoExtracted "tool")
    (by decide) (by decide) (by decide) (by decide) (by decide) (by decide) (by decide)
    (by decide)

theorem Install_ok_parent_witness :
    (Install demoRelease demoEnv ["dl"] ["tmp"] ["srv", "tool"] (demoFS "tool")).2.lookup
        (Parent (ofStrings ["srv", "tool"])) = some .dir
      ∧ ofStrings ["srv", "tool"] ∈ entriesOf
          (Install demoRelease demoEnv ["dl"] ["tmp"] ["srv", "tool"] (demoFS "tool")).2
          (Parent (ofStrings ["srv", "tool"])) :=
  Install_ok_parent demoRelease demoEnv ["dl"] ["tmp"] ["srv", "tool"] (demoFS "tool")
    (by decide) (by decide)

theorem Install_ambiguous_root_witness :
    (Install demoRelease demoEnv ["dl"] ["tmp"] ["opt", "tool"] (demoFS "two")).1
        = .error ("searching package root dir: "
            ++ ("no unique root dir in archive, found '"
              ++ pathString (demoTemp ++ ofStrings ["a"])
              ++ "' and '" ++ pathString (demoTemp ++ ofStrings ["b"]) ++ "'"))
      ∧ (Install demoRelease demoEnv ["dl"] ["tmp"] ["opt", "tool"] (demoFS "two")).2.lookup
          (ofStrings ["opt", "tool"]) = none :=
  ⟨(Install_ambiguous_root demoRelease demoEnv ["dl"] ["tmp"] ["opt", "tool"]
      ["dl", "tool-1.0.zip"] demoTemp (demoTemp ++ ofStrings ["a"])
      (demoTemp ++ ofStrings ["b"]) (.file "two")
      [demoTemp ++ ofStrings ["a"], demoTemp ++ ofStrings ["b"],
        demoTemp ++ ofStrings ["notes"]] []
      (demoFS "two") ((ofStrings ["tmp"], .dir) :: demoFS "two") (demoStaged "two")
      (demoExtracted "two")
      (by decide) (by decide) (by decide) (by decide) (by decide) (by decide)
      (by decide)).1,
    (Install_ambiguous_root demoRelease demoEnv ["dl"] ["tmp"] ["opt", "tool"]
      ["dl", "tool-1.0.zip"] demoTemp (demoTemp ++ ofStrings ["a"])
      (demoTemp ++ ofStrings ["b"]) (.file "two")
      [demoTemp ++ ofStrings ["a"], demoTemp ++ ofStrings ["b"],
        demoTemp ++ ofStrings ["notes"]] []
      (demoFS "two") ((ofStrings ["tmp"], .dir) :: demoFS "two") (demoStaged "two")
      (demoExtracted "two")
      (by decide) (by decide) (by decide) (by decide) (by decide) (by decide)
      (by decide)).2 (by decide) (by decide)⟩

theorem Install_rename_fails_parent_witness :
    (Install demoRelease crossDeviceEnv ["dl"] ["tmp"] ["srv", "tool"] (demoFS "tool")).1
        = .error ("moving extracted archive to destination dir: "
            ++ "invalid cross-device link")
      ∧ ((Install demoRelease crossDeviceEnv ["dl"] ["tmp"] ["srv", "tool"]
            (demoFS "tool")).2.lookup (Parent (ofStrings ["srv", "tool"])) = none
        ∨ entriesOf (Install demoRelease crossDeviceEnv ["dl"] ["tmp"] ["srv", "tool"]
            (demoFS "tool")).2 (Parent (ofStrings ["srv", "tool"])) ≠ [])
      ∧ (([] : List Path) = [] →
          (Install demoRelease crossDeviceEnv ["dl"] ["tmp"] ["srv", "tool"]
            (demoFS "tool")).2.lookup (Parent (ofStrings ["srv", "tool"])) = none) :=
  Install_rename_fails_parent demoRelease crossDeviceEnv ["dl"] ["tmp"] ["srv", "tool"]
    ["dl", "tool-1.0.zip"] demoTemp (demoTemp ++ ofStrings ["tool-1.0"]) (.file "tool") []
    "invalid cross-device link"
    (demoFS "tool") ((ofStrings ["tmp"], .dir) :: demoFS "tool") (demoStaged "tool")
    (demoExtracted "tool") ((ofStrings ["srv"], .dir) :: demoExtracted "tool")
    (by decide) (by decide) (by decide) (by decide) (by decide) (by decide) (by decide)
    (by decide) (by decide) (by decide) (by decide) (by decide)

theorem Install_no_root_witness :
    (Install demoRelease demoEnv ["dl"] ["tmp"] ["opt", "tool"] (demoFS "flat")).1
      = .panic "runtime error: invalid memory address or nil pointer dereference" :=
  (Install_no_root demoRelease demoEnv ["dl"] ["tmp"] ["opt", "tool"]
    ["dl", "tool-1.0.zip"] demoTemp (.file "flat") [demoTemp ++ ofStrings ["README"]]
    (demoFS "flat") ((ofStrings ["tmp"], .dir) :: demoFS "flat") (demoStaged "flat")
    (demoExtracted "flat")
    (by decide) (by decide) (by decide) (by decide) (by decide) (by decide)
    (by decide)).trans (by decide)

theorem Install_parent_error_unwrapped_witness :
    MkdirAll demoEnv (demoExtracted "tool")
        (Parent (ofStrings ["dl", "tool-1.0.zip", "x", "tool"]))
        = .error "mkdir /dl/tool-1.0.zip: not a directory"
      ∧ (Install demoRelease demoEnv ["dl"] ["tmp"] ["dl", "tool-1.0.zip", "x", "tool"]
          (demoFS "tool")).1 = .error "mkdir /dl/tool-1.0.zip: not a directory" :=
  ⟨by decide,
    Install_parent_error_unwrapped demoRelease demoEnv ["dl"] ["tmp"]
      ["dl", "tool-1.0.zip", "x", "tool"] ["dl", "tool-1.0.zip"] demoTemp (.file "tool")
      (some (demoTemp ++ ofStrings ["tool-1.0"])) "mkdir /dl/tool-1.0.zip: not a directory"
      (demoFS "tool") ((ofStrings ["tmp"], .dir) :: demoFS "tool") (demoStaged "tool")
      (demoExtracted "tool")
      (by decide) (by decide) (by decide) (by decide) (by decide) (by decide) (by decide)⟩

/-! ## Inputs on which the claims as first stated fail -/

/-- C2 as first stated fails: with `tempPath = /srv/tmp` and `destDir = /srv`,
absent before the call, an archive with the two top-level directories `a` and
`b` gives the ambiguous-root error, and `/srv` exists afterwards: creating
`tempPath` created it. -/
theorem ambiguous_root_creates_ancestor_destDir :
    (demoFS "two").lookup (ofStrings ["srv"]) = none
      ∧ (Install demoRelease demoEnv ["dl"] ["srv", "tmp"] ["srv"] (demoFS "two")).1
          = .error ("searching package root dir: no unique root dir in archive, found "
              ++ "'/srv/tmp/package-123456789/a' and '/srv/tmp/package-123456789/b'")
      ∧ (Install demoRelease demoEnv ["dl"] ["srv", "tmp"] ["srv"] (demoFS "two")).2.lookup
          (ofStrings ["srv"]) = some .dir := by
  decide

/-- C3 as first stated fails: when the deferred `tempDir.RemoveAll()` fails, an
archive with the single top-level directory `tool-1.0` installs with success
at `/opt/tool`, and the temporary subdirectory still exists when `Install`
returns. -/
theorem success_with_failed_removal_keeps_tempDir :
    findPackageRoot stuckEnv (demoExtracted "tool") demoTemp
        = .ok (some (demoTemp ++ ofStrings ["tool-1.0"]))
      ∧ (Install demoRelease stuckEnv ["dl"] ["tmp"] ["opt", "tool"] (demoFS "tool")).1 = .ok
      ∧ (Install demoRelease stuckEnv ["dl"] ["tmp"] ["opt", "tool"] (demoFS "tool")).2.lookup
          (ofStrings ["opt", "tool"]) = some .dir
      ∧ (Install demoRelease stuckEnv ["dl"] ["tmp"] ["opt", "tool"] (demoFS "tool")).2.lookup
          demoTemp = some .dir := by
  decide

/-- C4 as first stated fails: when the deferred `tempDir.RemoveAll()` fails on
the exit with the ambiguous-root error, the temporary subdirectory made by the
call still exists, with what was extracted into it, when `Install` returns. -/
theorem failed_removal_leaves_tempDir :
    MkTempDir stuckEnv ((ofStrings ["tmp"], .dir) :: demoFS "two") (ofStrings ["tmp"])
        "package-" = .ok (demoTemp, demoStaged "two")
      ∧ (RemoveAll stuckEnv (demoExtracted "two") demoTemp).2 = some "permission denied"
      ∧ (Install demoRelease stuckEnv ["dl"] ["tmp"] ["opt", "tool"] (demoFS "two")).1
          = .error ("searching package root dir: no unique root dir in archive, found "
              ++ "'/tmp/package-123456789/a' and '/tmp/package-123456789/b'")
      ∧ (Install demoRelease stuckEnv ["dl"] ["tmp"] ["opt", "tool"] (demoFS "two")).2.lookup
          demoTemp = some .dir
      ∧ (Install demoRelease stuckEnv ["dl"] ["tmp"] ["opt", "tool"] (demoFS "two")).2.lookup
          (demoTemp ++ ofStrings ["a"]) = some .dir := by
  decide

/-- C7 as first stated fails: with `tempPath = /srv/tmp` the parent of
`destDir = /srv/tmp/tool`, absent before the call, and a rename that fails, the
parent is present and empty when `Install` returns: it held the temporary
subdirectory when the deferred check ran, and that subdirectory was removed
afterwards. -/
theorem failed_rename_leaves_empty_tempPath :
    (demoFS "tool").lookup (Parent (ofStrings ["srv", "tmp", "tool"])) = none
      ∧ (Install demoRelease crossDeviceEnv ["dl"] ["srv", "tmp"] ["srv", "tmp", "tool"]
          (demoFS "tool")).1
          = .error "moving extracted archive to destination dir: invalid cross-device link"
      ∧ (Install demoRelease crossDeviceEnv ["dl"] ["srv", "tmp"] ["srv", "tmp", "tool"]
          (demoFS "tool")).2.lookup (Parent (ofStrings ["srv", "tmp", "tool"])) = some .dir
      ∧ ReadDir crossDeviceEnv
          (Install demoRelease crossDeviceEnv ["dl"] ["srv", "tmp"] ["srv", "tmp", "tool"]
            (demoFS "tool")).2 (Parent (ofStrings ["srv", "tmp", "tool"])) = .ok [] := by
  decide

/-- C10. The empty-parent cleanup does not tell a parent it created from one
that was there: with `/opt` an empty directory before the call and a rename to
`/opt/tool` that fails, `Install` removes `/opt`. -/
theorem existing_empty_parent_removed :
    (demoFS "tool").lookup (Parent (ofStrings ["opt", "tool"])) = some .dir
      ∧ ReadDir crossDeviceEnv (demoFS "tool") (Parent (ofStrings ["opt", "tool"])) = .ok []
      ∧ Rename crossDeviceEnv (demoExtracted "tool") (demoTemp ++ ofStrings ["tool-1.0"])
          (ofStrings ["opt", "tool"]) = .error "invalid cross-device link"
      ∧ (Install demoRelease crossDeviceEnv ["dl"] ["tmp"] ["opt", "tool"] (demoFS "tool")).1
          = .error "moving extracted archive to destination dir: invalid cross-device link"
      ∧ (Install demoRelease crossDeviceEnv ["dl"] ["tmp"] ["opt", "tool"]
          (demoFS "tool")).2.lookup (Parent (ofStrings ["opt", "tool"])) = none := by
  decide

end Resources
